import Mathlib

/-!
Verification development for the sandboxed document parser
(`packages/document-parser/parse.py`).

Python strings are modelled as `List Char` (Python strings are sequences of
Unicode code points).  Python's `str.upper`/`str.lower` are modelled
character-wise; `str.find` is modelled by `strFind`, returning the leftmost
index at which the needle occurs (Python's `-1` becomes `none`).

The PyMuPDF library (`fitz`) is an external black box: a document is modelled
by the observable outcomes the script consumes — the result of `fitz.open`
(pages plus metadata, or an exception), per page the outcome of
`page.get_text()` (text or an exception) and the sequence of outcomes of the
table finder.  `hashlib.sha256(...).hexdigest()` is an external pure function,
taken as a parameter `sha : List Nat → List Char` over the byte string.
-/

namespace DocParser

abbrev Str := List Char

/-- Model of one character under Python `str.upper()`.  Python applies the
full Unicode case mapping, under which a character may uppercase to more
than one character — the German sharp s uppercases to a double `S` — so
the image of a character is a string, not a character.  Characters without
such an expansion are mapped by `Char.toUpper` (faithful on ASCII). -/
def pyUpperChar (c : Char) : Str :=
  if c = 'ß' then ['S', 'S'] else [c.toUpper]

/-- Model of Python `str.upper()`: the concatenation of the per-character
case mappings.  Not length-preserving: `pyUpper ['ß'] = ['S', 'S']`. -/
def pyUpper (s : Str) : Str := (s.map pyUpperChar).flatten

/-- Model of Python `str.lower()` (character-wise, ASCII-faithful). -/
def pyLower (s : Str) : Str := s.map Char.toLower

/-- Model of Python `haystack.find(needle)`: the least index at which
`needle` occurs in `haystack`, or `none` (Python returns `-1`). -/
def strFind (h n : Str) : Option Nat :=
  if n.isPrefixOf h then some 0
  else
    match h with
    | [] => none
    | _ :: t => (strFind t n).map (· + 1)

/-- Model of Python `str.strip()`: whitespace removed from both ends. -/
def pyStrip (s : Str) : Str :=
  ((s.dropWhile Char.isWhitespace).reverse.dropWhile Char.isWhitespace).reverse

/-- Model of Python `sep.join(parts)`. -/
def pyJoin (sep : Str) : List Str → Str
  | [] => []
  | [x] => x
  | x :: xs => x ++ sep ++ pyJoin sep xs

/-- Number of indices at which `n` occurs as a substring of `h`. -/
def countOccurrences (n h : Str) : Nat :=
  (List.range (h.length + 1)).countP (fun i => n.isPrefixOf (h.drop i))

/-!  Section detector (`detect_sections`, parse.py lines 62-131). -/

/-- A tentative span, before `endIndex` assignment: the dict
`{name, startIndex, detected}` appended at parse.py line 114. -/
structure TentSpan where
  name : Str
  startIndex : Nat
deriving DecidableEq, Repr

/-- A finished span `{name, startIndex, detected, endIndex}`. -/
structure SectionSpan where
  name : Str
  startIndex : Nat
  endIndex : Nat
  detected : Bool
deriving DecidableEq, Repr

/-- The fixed vocabulary `section_patterns` (parse.py lines 70-103). -/
def section_patterns : List Str :=
  ["CHIEF COMPLAINT",
   "HISTORY OF PRESENT ILLNESS",
   "HPI",
   "PAST MEDICAL HISTORY",
   "PMH",
   "MEDICATIONS",
   "ALLERGIES",
   "SOCIAL HISTORY",
   "FAMILY HISTORY",
   "REVIEW OF SYSTEMS",
   "ROS",
   "PHYSICAL EXAMINATION",
   "PHYSICAL EXAM",
   "VITAL SIGNS",
   "VITALS",
   "ASSESSMENT",
   "PLAN",
   "ASSESSMENT AND PLAN",
   "A/P",
   "LABS",
   "LABORATORY",
   "IMAGING",
   "RADIOLOGY",
   "DIAGNOSIS",
   "DIAGNOSES",
   "IMPRESSION",
   "RECOMMENDATIONS",
   "FOLLOW UP",
   "FOLLOW-UP",
   "DISCHARGE SUMMARY",
   "OPERATIVE REPORT",
   "PROCEDURE NOTE"].map String.toList

/-- The inner loop of `detect_sections` for one vocabulary entry
(parse.py lines 109-119): probe the three boundary-qualified needles in
priority order and return the index of the first one found. -/
def probeEntry (textUpper p : Str) : Option Nat :=
  match strFind textUpper ('\n' :: (p ++ [':'])) with
  | some i => some i
  | none =>
    match strFind textUpper ('\n' :: (p ++ ['\n'])) with
    | some i => some i
    | none => strFind textUpper ('\n' :: (p ++ [' ']))

/-- The tentative spans collected by the pattern loop, in vocabulary order
(parse.py lines 107-119). -/
def tentativeSpans (text : Str) : List TentSpan :=
  section_patterns.filterMap fun p =>
    (probeEntry (pyUpper text) p).map fun i => ⟨p, i + 1⟩

/-- The sort key comparison of parse.py line 122. -/
def spanLE (a b : TentSpan) : Prop := a.startIndex ≤ b.startIndex

instance : DecidableRel spanLE := fun a b => Nat.decLe a.startIndex b.startIndex

instance : IsTotal TentSpan spanLE := ⟨fun a b => Nat.le_total a.startIndex b.startIndex⟩

instance : IsTrans TentSpan spanLE := ⟨fun _ _ _ h h' => Nat.le_trans h h'⟩

/-- The `endIndex` assignment walk of parse.py lines 125-129: each span ends
where the next one starts, the last one at `length text`. -/
def assignEnds (textLen : Nat) : List TentSpan → List SectionSpan
  | [] => []
  | [s] => [⟨s.name, s.startIndex, textLen, true⟩]
  | s :: t :: rest => ⟨s.name, s.startIndex, t.startIndex, true⟩ :: assignEnds textLen (t :: rest)

/-- Definition of `detect_sections` (parse.py lines 62-131).  Python's stable `list.sort`
by the `startIndex` key is modelled by insertion sort on `spanLE`. -/
def detect_sections (text : Str) : List SectionSpan :=
  assignEnds text.length (List.insertionSort spanLE (tentativeSpans text))

/-!  Content hasher (`compute_hash`, parse.py lines 41-43).
`hashlib.sha256(...).hexdigest()` is an external primitive, abstracted as a
function `sha` from byte strings to hex strings; the UTF-8 encoding of
`content.encode('utf-8')` is modelled concretely. -/

/-- UTF-8 byte encoding of a string, `content.encode('utf-8')`. -/
def utf8Bytes (s : Str) : List Nat :=
  (s.map fun c => (String.utf8EncodeChar c).map UInt8.toNat).flatten

/-- Definition of `compute_hash` (parse.py lines 41-43):
`hashlib.sha256(content.encode('utf-8')).hexdigest()`. -/
def compute_hash (sha : List Nat → Str) (content : Str) : Str :=
  sha (utf8Bytes content)

/-!  Model of the PyMuPDF (`fitz`) black box and of `parse_pdf`
(parse.py lines 134-225).

A run of the script observes the library only through: the outcome of
`fitz.open` (an exception, or a document with its pages and its `metadata`
attribute), per page the outcome of `page.get_text()` (text or an
exception), and the successive outcomes of `table.extract()` over
`page.find_tables()` (a raise anywhere in that iteration aborts it).
`fitz.FileDataError` is the one exception class the script distinguishes. -/

/-- An exception raised by the library: `fitz.FileDataError` or any other
`Exception`, with the text of `str(e)`. -/
inductive PyErr where
  | fileData (msg : Str)
  | generic (msg : Str)
deriving DecidableEq, Repr

deriving instance DecidableEq for Except

/-- One page, as observed by the script: the outcome of `page.get_text()`
and the sequence of `table.extract()` outcomes produced by
`page.find_tables()` (a `find_tables` failure is a leading error). -/
structure PageModel where
  textResult : Except PyErr Str
  tableEvents : List (Except PyErr (List (List Str)))
deriving DecidableEq, Repr

/-- A document as observed through `fitz.open`: an exception, or the list of
pages together with the `doc.metadata` dict (`none` models a `None`
metadata attribute; an empty list models an empty — falsy — dict). -/
structure DocModel where
  openResult : Except PyErr (List PageModel × Option (List (Str × Str)))
deriving DecidableEq, Repr

/-- One entry of `result["tables"]` (parse.py lines 192-195). -/
structure TableRecord where
  page : Nat
  data : List (List Str)
deriving DecidableEq, Repr

/-- A JSON value, for the serialized output artifact. -/
inductive JsonVal where
  | str (s : Str)
  | num (n : Nat)
  | bool (b : Bool)
  | arr (items : List JsonVal)
  | obj (fields : List (Str × JsonVal))
deriving Repr

/-- The `result` dict built by `parse_pdf` / `parse_image`
(parse.py lines 148-158 and 233-243). -/
structure ParseResult where
  success : Bool
  pageCount : Nat
  text : Str
  tables : List TableRecord
  metadata : List (Str × JsonVal)
  sections : List SectionSpan
  contentHash : Str
  warnings : List Str
  parsedAt : Str

/-- The warning text for each exception class (parse.py lines 218-223). -/
def errWarning : PyErr → Str
  | .fileData m => "PDF parsing error: ".toList ++ m
  | .generic m => "Unexpected error: ".toList ++ m

/-- Definition of `extract_tables` (parse.py lines 46-59): walk the `table.extract()`
outcomes, keep the non-empty (truthy) matrices, and stop silently at the
first raised exception, returning what was accumulated so far. -/
def extract_tables : List (Except PyErr (List (List Str))) → List (List (List Str))
  | [] => []
  | .error _ :: _ => []
  | .ok t :: rest => (if t.isEmpty then [] else [t]) ++ extract_tables rest

/-- The page banner `f"--- Page {page_num + 1} ---\n"` (parse.py line 186). -/
def pageHeader (n : Nat) : Str :=
  "--- Page ".toList ++ (Nat.repr n).data ++ " ---\n".toList

/-- The per-page loop (parse.py lines 182-195), pages numbered from
`k` (zero-based): collects the rendered non-empty page texts and the table
records, or propagates the first `get_text` exception. -/
def extractPages : List PageModel → Nat → Except PyErr (List Str × List TableRecord)
  | [], _ => .ok ([], [])
  | p :: rest, k =>
    match p.textResult with
    | .error e => .error e
    | .ok t =>
      match extractPages rest (k + 1) with
      | .error e => .error e
      | .ok (texts, tbls) =>
        .ok ((if t.isEmpty then [] else [pageHeader (k + 1) ++ t]) ++ texts,
             ((extract_tables p.tableEvents).map fun d => ⟨k + 1, d⟩) ++ tbls)

/-- Python `d.get(key, "")` over the metadata dict. -/
def dictGet (d : List (Str × Str)) (k : Str) : Str :=
  match d.find? (fun kv => kv.1 == k) with
  | some kv => kv.2
  | none => []

/-- The fixed key set of the PDF metadata mapping (parse.py lines 168-176),
in insertion order. -/
def pdfMetadataKeys : List Str :=
  ["title", "author", "subject", "creator", "producer", "creationDate",
   "modDate"].map String.toList

/-- The metadata dict built at parse.py lines 168-176. -/
def extractMeta (d : List (Str × Str)) : List (Str × JsonVal) :=
  pdfMetadataKeys.map fun k => (k, .str (dictGet d k))

/-- The initial `result` dict (parse.py lines 148-158); `now` stands for
`datetime.utcnow().isoformat() + "Z"`. -/
def initResult (now : Str) : ParseResult :=
  ⟨false, 0, [], [], [], [], [], [], now⟩

/-- Warning appended when the stripped text is short (parse.py line 210). -/
def lowContentWarning : Str :=
  "Document appears to have very little text content".toList

/-- Warning `f"Large document with {result['pageCount']} pages"`
(parse.py line 213). -/
def largeDocWarning (n : Nat) : Str :=
  "Large document with ".toList ++ (Nat.repr n).data ++ " pages".toList

/-- Definition of `parse_pdf` (parse.py lines 134-225).  Returns the `result` dict
together with a flag recording whether `doc.close()` (line 215) ran before
control returned.  On an exception anywhere in the `try` block, control
jumps to the matching `except` clause: fields assigned before the raise
keep their values, the rest keep their defaults, and `doc.close()` — which
is only reached at the end of the `try` block — does not run. -/
def parse_pdf (sha : List Nat → Str) (now : Str) (doc : DocModel) :
    ParseResult × Bool :=
  let r0 := initResult now
  match doc.openResult with
  | .error e => ({ r0 with warnings := [errWarning e], success := false }, false)
  | .ok (pages, md) =>
    let r1 := { r0 with
      pageCount := pages.length,
      metadata :=
        match md with
        | some d => if d.isEmpty then [] else extractMeta d
        | none => [] }
    match extractPages pages 0 with
    | .error e => ({ r1 with warnings := [errWarning e], success := false }, false)
    | .ok (texts, tbls) =>
      let full := pyJoin "\n\n".toList texts
      ({ r1 with
          text := full,
          tables := tbls,
          contentHash := compute_hash sha full,
          sections := detect_sections full,
          warnings :=
            (if (pyStrip full).length < 100 then [lowContentWarning] else []) ++
              (if 100 < pages.length then [largeDocWarning pages.length] else []),
          success := true }, true)

/-- Whether the loader/extractor pipeline of `parse_pdf` runs to completion
without raising: `fitz.open` succeeds and no `page.get_text()` raises. -/
def pipelineOk (doc : DocModel) : Bool :=
  match doc.openResult with
  | .error _ => false
  | .ok (pages, _) => pages.all fun p => p.textResult.isOk

/-!  Alternate minimal extractor (`parse_image`, parse.py lines 228-265)
and the entry point (`main`, parse.py lines 268-319). -/

/-- An image input as observed by `parse_image`: the outcome of opening and
reading the file (its raw bytes), and the `Path` metadata.  A failure
anywhere in the `try` block is modelled as a failure of the read, the first
statement of the block. -/
structure ImageModel where
  readResult : Except PyErr (List Nat)
  fileName : Str
  suffix : Str
  sizeBytes : Nat

/-- Python `str(e)` on an exception value. -/
def PyErr.msgText : PyErr → Str
  | .fileData m => m
  | .generic m => m

/-- Definition of `parse_image` (parse.py lines 228-265). -/
def parse_image (sha : List Nat → Str) (now : Str) (img : ImageModel) :
    ParseResult :=
  let base := { initResult now with
    pageCount := 1,
    warnings := ["Image OCR not implemented - returning metadata only".toList] }
  match img.readResult with
  | .error e =>
    { base with
        warnings := base.warnings ++ ["Image parsing error: ".toList ++ e.msgText],
        success := false }
  | .ok bytes =>
    { base with
        contentHash := sha bytes,
        metadata :=
          [("filename".toList, .str img.fileName),
           ("extension".toList, .str (pyLower img.suffix)),
           ("sizeBytes".toList, .num img.sizeBytes)],
        success := true }

/-- The image extensions routed to `parse_image` (parse.py line 294). -/
def imageExtensions : List Str :=
  [".png", ".jpg", ".jpeg", ".gif", ".bmp", ".tiff", ".tif"].map String.toList

/-- Serialization of the `result` dict to the output JSON object, key order
following the dict's insertion order (parse.py lines 148-158). -/
def resultJson (r : ParseResult) : List (Str × JsonVal) :=
  [("success".toList, .bool r.success),
   ("pageCount".toList, .num r.pageCount),
   ("text".toList, .str r.text),
   ("tables".toList, .arr (r.tables.map fun t =>
      .obj [("page".toList, .num t.page), ("data".toList,
        .arr (t.data.map fun row => .arr (row.map .str)))])),
   ("metadata".toList, .obj r.metadata),
   ("sections".toList, .arr (r.sections.map fun s =>
      .obj [("name".toList, .str s.name),
            ("startIndex".toList, .num s.startIndex),
            ("detected".toList, .bool s.detected),
            ("endIndex".toList, .num s.endIndex)])),
   ("contentHash".toList, .str r.contentHash),
   ("warnings".toList, .arr (r.warnings.map .str)),
   ("parsedAt".toList, .str r.parsedAt)]

/-- The environment one invocation of `main` runs against: the two paths,
whether the input path exists, and the document/image the library would
observe there.  The output write is assumed to succeed (the outer
`except` handler of parse.py lines 309-319 is not modelled). -/
structure Env where
  inputPath : Str
  inputExists : Bool
  pdfDoc : DocModel
  image : ImageModel
  now : Str

/-- What one invocation leaves behind: the JSON object written to the
output path and the process exit code. -/
structure MainOutcome where
  output : List (Str × JsonVal)
  exitCode : Nat

/-- Definition of `main` (parse.py lines 268-319), after argument parsing: the
missing-input check (lines 278-286), the extension routing (lines 289-300)
and the final write and exit (lines 303-307). -/
def main_model (sha : List Nat → Str) (env : Env) : MainOutcome :=
  if env.inputExists = false then
    ⟨[("success".toList, .bool false),
      ("error".toList, .str ("Input file not found: ".toList ++ env.inputPath)),
      ("parsedAt".toList, .str env.now)], 1⟩
  else
    let lower := pyLower env.inputPath
    let result :=
      if (".pdf".toList).isSuffixOf lower then (parse_pdf sha env.now env.pdfDoc).1
      else if imageExtensions.any (fun e => e.isSuffixOf lower) then
        parse_image sha env.now env.image
      else
        let r := (parse_pdf sha env.now env.pdfDoc).1
        if r.success then r
        else { r with warnings :=
          r.warnings ++ ["Unknown file type, attempted PDF parsing".toList] }
    ⟨resultJson result, if result.success then 0 else 1⟩

/-!  Concrete fixtures used to instantiate the theorems below. -/

/-- A stand-in for the external SHA-256 hex digest function. -/
def sampleSha : List Nat → Str := fun _ => ['x']

/-- A well-formed two-page document: an empty first page (to be skipped)
and a non-empty second page, with a metadata dict. -/
def sampleDoc : DocModel :=
  ⟨.ok ([⟨.ok [], []⟩, ⟨.ok "hello doc".toList, []⟩],
    some [("title".toList, "T".toList)])⟩

/-- A document that opens fine but whose first page's `get_text()` raises. -/
def raisingDoc : DocModel :=
  ⟨.ok ([⟨.error (.generic "boom".toList), []⟩], none)⟩

/-- A document whose `metadata` attribute is `None` (falsy). -/
def noMetaDoc : DocModel :=
  ⟨.ok ([⟨.ok "Patient note text".toList, []⟩], none)⟩

/-- A zero-page document with a non-empty metadata dict. -/
def metaDoc : DocModel :=
  ⟨.ok ([], some [("title".toList, "T".toList), ("author".toList, "A".toList)])⟩

/-- A sample image input. -/
def sampleImage : ImageModel := ⟨.ok [1, 2, 3], "a.png".toList, ".PNG".toList, 3⟩

/-- An invocation environment whose input path does not exist. -/
def missingInputEnv : Env :=
  ⟨"/job/input.pdf".toList, false, sampleDoc, sampleImage, "Z".toList⟩

/-- A text whose uppercase image is longer than the text itself: sixty
sharp-s characters followed by a `PLAN` header line (68 characters; its
uppercase image has 128). -/
def sharpSText : Str := List.replicate 60 'ß' ++ "\nPLAN: x".toList

/-!  Facts about `strFind`: it reports an occurrence, the leftmost one, and
`none` means the needle occurs nowhere. -/

theorem isPrefixOf_eq_true {l1 l2 : Str} : l1.isPrefixOf l2 = true ↔ l1 <+: l2 :=
  List.isPrefixOf_iff_prefix

theorem strFind_occurs : ∀ {h n : Str} {i : Nat},
    strFind h n = some i → n <+: h.drop i := by
  intro h
  induction h with
  | nil =>
    intro n i hf
    rw [strFind] at hf
    split at hf
    · rename_i hpre
      cases hf
      simpa using isPrefixOf_eq_true.mp hpre
    · cases hf
  | cons c t ih =>
    intro n i hf
    rw [strFind] at hf
    split at hf
    · rename_i hpre
      cases hf
      simpa using isPrefixOf_eq_true.mp hpre
    · cases e : strFind t n with
      | none => rw [e] at hf; cases hf
      | some j =>
        rw [e] at hf
        simp only [Option.map_some'] at hf
        cases hf
        simpa using ih e

theorem strFind_min : ∀ {h n : Str} {i : Nat},
    strFind h n = some i → ∀ j < i, ¬ n <+: h.drop j := by
  intro h
  induction h with
  | nil =>
    intro n i hf
    rw [strFind] at hf
    split at hf
    · cases hf; omega
    · cases hf
  | cons c t ih =>
    intro n i hf
    rw [strFind] at hf
    split at hf
    · cases hf; omega
    · rename_i hnpre
      cases e : strFind t n with
      | none => rw [e] at hf; cases hf
      | some j' =>
        rw [e] at hf
        simp only [Option.map_some'] at hf
        cases hf
        intro j hj
        cases j with
        | zero =>
          simpa using fun hpre => hnpre (isPrefixOf_eq_true.mpr hpre)
        | succ k =>
          have : k < j' := by omega
          simpa using ih e k this

theorem strFind_none : ∀ {h n : Str},
    strFind h n = none → ∀ j, ¬ n <+: h.drop j := by
  intro h
  induction h with
  | nil =>
    intro n hf j
    rw [strFind] at hf
    split at hf
    · cases hf
    · rename_i hnpre
      simpa using fun hpre => hnpre (isPrefixOf_eq_true.mpr hpre)
  | cons c t ih =>
    intro n hf j
    rw [strFind] at hf
    split at hf
    · cases hf
    · rename_i hnpre
      cases e : strFind t n with
      | some j' => rw [e] at hf; cases hf
      | none =>
        cases j with
        | zero => simpa using fun hpre => hnpre (isPrefixOf_eq_true.mpr hpre)
        | succ k => simpa using ih e k

theorem strFind_bound {h n : Str} {i : Nat} (hn : n ≠ [])
    (hf : strFind h n = some i) : i + n.length ≤ h.length := by
  have hpre := strFind_occurs hf
  have hlen := hpre.length_le
  rw [List.length_drop] at hlen
  have : 0 < n.length := List.length_pos.mpr hn
  omega

/-!  Facts about the tentative-span collection. -/

theorem probeEntry_some {tu p : Str} {i : Nat} (h : probeEntry tu p = some i) :
    ∃ b ∈ [':', '\n', ' '], strFind tu ('\n' :: (p ++ [b])) = some i := by
  rw [probeEntry] at h
  split at h
  · rename_i hf
    cases h
    exact ⟨':', by simp, hf⟩
  · split at h
    · rename_i hf
      cases h
      exact ⟨'\n', by simp, hf⟩
    · exact ⟨' ', by simp, h⟩

theorem tentativeSpans_mem {text : Str} {s : TentSpan}
    (hs : s ∈ tentativeSpans text) :
    s.name ∈ section_patterns ∧
      ∃ i, probeEntry (pyUpper text) s.name = some i ∧ s.startIndex = i + 1 := by
  rw [tentativeSpans, List.mem_filterMap] at hs
  obtain ⟨p, hp, hmap⟩ := hs
  cases e : probeEntry (pyUpper text) p with
  | none => rw [e] at hmap; cases hmap
  | some i =>
    rw [e] at hmap
    simp only [Option.map_some'] at hmap
    cases hmap
    exact ⟨hp, i, e, rfl⟩

theorem tentativeSpans_start_bounds {text : Str} {s : TentSpan}
    (hs : s ∈ tentativeSpans text) :
    1 ≤ s.startIndex ∧ s.startIndex < (pyUpper text).length := by
  obtain ⟨_, i, hpe, hstart⟩ := tentativeSpans_mem hs
  obtain ⟨b, _, hfind⟩ := probeEntry_some hpe
  have hb := strFind_bound (by simp) hfind
  simp only [List.length_cons, List.length_append, List.length_singleton] at hb
  omega

/-!  Facts about the `endIndex` assignment walk. -/

theorem assignEnds_map_pair (L : Nat) :
    ∀ l : List TentSpan,
      (assignEnds L l).map (fun s => (s.name, s.startIndex)) =
        l.map (fun s => (s.name, s.startIndex))
  | [] => rfl
  | [_] => rfl
  | s :: t :: rest => by
    simpa [assignEnds] using assignEnds_map_pair L (t :: rest)

theorem assignEnds_map_start (L : Nat) (l : List TentSpan) :
    (assignEnds L l).map (fun s => s.startIndex) = l.map (fun s => s.startIndex) := by
  have h := congrArg (List.map Prod.snd) (assignEnds_map_pair L l)
  simpa [List.map_map, Function.comp_def] using h

theorem assignEnds_chain (L : Nat) :
    ∀ l : List TentSpan,
      List.Chain' (fun a b => a.endIndex = b.startIndex) (assignEnds L l)
  | [] => List.chain'_nil
  | [s] => by simp [assignEnds]
  | s :: t :: rest => by
    simp only [assignEnds]
    rw [List.chain'_cons']
    refine ⟨?_, assignEnds_chain L (t :: rest)⟩
    intro y hy
    cases rest with
    | nil => simp [assignEnds] at hy; simp [← hy]
    | cons u rs => simp [assignEnds] at hy; simp [← hy]

theorem assignEnds_ne_nil (L : Nat) :
    ∀ {l : List TentSpan}, l ≠ [] → assignEnds L l ≠ [] := by
  intro l hl
  match l with
  | [] => exact absurd rfl hl
  | [s] => simp [assignEnds]
  | s :: t :: rest => simp [assignEnds]

theorem assignEnds_getLast (L : Nat) :
    ∀ l : List TentSpan, ∀ s, (assignEnds L l).getLast? = some s →
      s.endIndex = L
  | [], s => by intro hs; simp [assignEnds] at hs
  | [t], s => by
    intro hs
    simp [assignEnds] at hs
    simp [← hs]
  | s0 :: t :: rest, s => by
    intro hs
    obtain ⟨x, xs, hx⟩ :=
      List.exists_cons_of_ne_nil (assignEnds_ne_nil L (l := t :: rest) (by simp))
    simp only [assignEnds] at hs
    rw [hx, List.getLast?_cons_cons] at hs
    exact assignEnds_getLast L (t :: rest) s (by rw [hx]; exact hs)

theorem assignEnds_bounds (L : Nat) :
    ∀ l : List TentSpan, List.Chain' spanLE l →
      (∀ s ∈ l, 1 ≤ s.startIndex ∧ s.startIndex < L) →
      ∀ s ∈ assignEnds L l,
        1 ≤ s.startIndex ∧ s.startIndex ≤ s.endIndex ∧ s.endIndex ≤ L
  | [] => by intro _ _ s hs; simp [assignEnds] at hs
  | [t] => by
    intro _ hb s hs
    simp [assignEnds] at hs
    have ht := hb t (by simp)
    rw [hs]
    exact ⟨ht.1, by simpa using Nat.le_of_lt ht.2, Nat.le_refl L⟩
  | s0 :: t :: rest => by
    intro hc hb s hs
    simp only [assignEnds, List.mem_cons] at hs
    rcases hs with rfl | hs
    · have h0 := hb s0 (by simp)
      have ht := hb t (by simp)
      have hle : spanLE s0 t := (List.chain'_cons.mp hc).1
      exact ⟨h0.1, hle, Nat.le_of_lt ht.2⟩
    · exact assignEnds_bounds L (t :: rest) (List.chain'_cons.mp hc).2
        (fun u hu => hb u (List.mem_cons_of_mem _ hu)) s hs

theorem detect_sections_name_mem {text : Str} {s : SectionSpan}
    (hs : s ∈ detect_sections text) :
    ∃ t ∈ tentativeSpans text, t.name = s.name ∧ t.startIndex = s.startIndex := by
  have hp : (s.name, s.startIndex) ∈
      (detect_sections text).map (fun x => (x.name, x.startIndex)) :=
    List.mem_map_of_mem _ hs
  rw [detect_sections, assignEnds_map_pair, List.mem_map] at hp
  obtain ⟨t, ht, hpair⟩ := hp
  have := Prod.mk.injEq .. ▸ hpair
  exact ⟨t, ((List.perm_insertionSort spanLE _).mem_iff).mp ht,
    congrArg Prod.fst hpair, congrArg Prod.snd hpair⟩

/-- Extracting one vocabulary entry's contribution from the collected
tentative spans: with a duplicate-free vocabulary, filtering the collected
spans by an entry's name leaves exactly that entry's (at most one) span. -/
theorem filterMap_filter_name (g : Str → Option TentSpan)
    (hg : ∀ q s, g q = some s → s.name = q) (p : Str) :
    ∀ l : List Str, l.Nodup → p ∈ l →
      (l.filterMap g).filter (fun s => s.name = p) = (g p).toList := by
  intro l
  induction l with
  | nil => intro _ hp; cases hp
  | cons a l ih =>
    intro hnd hp
    rw [List.filterMap_cons]
    rcases List.mem_cons.mp hp with rfl | hpl
    · have hnotin : p ∉ l := (List.nodup_cons.mp hnd).1
      have hrest : (l.filterMap g).filter (fun s => s.name = p) = [] := by
        rw [List.filter_eq_nil_iff]
        intro s hsmem
        obtain ⟨q, hq, hgq⟩ := List.mem_filterMap.mp hsmem
        have hname := hg q s hgq
        simp only [decide_eq_true_eq]
        intro hsp
        exact hnotin (by rw [← hsp, hname]; exact hq)
      cases e : g p with
      | none => simpa using hrest
      | some s =>
        have hsname := hg p s e
        simp [List.filter_cons, hsname, hrest]
    · have hap : a ≠ p := fun h => (List.nodup_cons.mp hnd).1 (h ▸ hpl)
      have ih' := ih (List.nodup_cons.mp hnd).2 hpl
      cases e : g a with
      | none => simpa using ih'
      | some s =>
        have hsname := hg a s e
        rw [List.filter_cons]
        simp only [hsname, decide_eq_true_eq]
        rw [if_neg (by simpa using hap)]
        exact ih'

theorem section_patterns_nodup : section_patterns.Nodup := by decide

/-- Claim C1: for every input text, the list returned by the section
detector is sorted ascending by `startIndex`; every non-last entry's
`endIndex` equals the next entry's `startIndex`; and the last entry's
`endIndex` equals the length of the input text. -/
theorem detect_sections_contiguous_partition (text : Str) :
    List.Sorted (fun a b : SectionSpan => a.startIndex ≤ b.startIndex)
      (detect_sections text) ∧
    List.Chain' (fun a b : SectionSpan => a.endIndex = b.startIndex)
      (detect_sections text) ∧
    ∀ s, (detect_sections text).getLast? = some s →
      s.endIndex = text.length := by
  refine ⟨?_, assignEnds_chain _ _, fun s hs => assignEnds_getLast _ _ s hs⟩
  have h1 : List.Pairwise (fun a b : TentSpan => a.startIndex ≤ b.startIndex)
      (List.insertionSort spanLE (tentativeSpans text)) :=
    List.sorted_insertionSort spanLE _
  have h2 : List.Pairwise (fun a b : Nat => a ≤ b)
      ((List.insertionSort spanLE (tentativeSpans text)).map
        (fun s => s.startIndex)) :=
    List.pairwise_map.mpr h1
  rw [← assignEnds_map_start text.length] at h2
  exact List.pairwise_map.mp h2

/-- Claim C1 witness: the invariants at the concrete text
`"\nPLAN: x"`, whose single section is `PLAN` with span `[1, 8)`. -/
theorem detect_sections_contiguous_partition_witness :
    List.Sorted (fun a b : SectionSpan => a.startIndex ≤ b.startIndex)
      (detect_sections "\nPLAN: x".toList) ∧
    (⟨"PLAN".toList, 1, 8, true⟩ : SectionSpan).endIndex =
      ("\nPLAN: x".toList).length :=
  ⟨(detect_sections_contiguous_partition "\nPLAN: x".toList).1,
   (detect_sections_contiguous_partition "\nPLAN: x".toList).2.2
     ⟨"PLAN".toList, 1, 8, true⟩ (by decide)⟩

set_option maxRecDepth 16384 in
/-- Claim C10 counterexample: on sixty sharp-s characters followed by a
`PLAN` header line the text has 68 characters but its uppercase image has
128; the needle is found at index 120 of the uppercased text, and the
single returned span is `PLAN` with `startIndex` 121 and `endIndex` 68 —
the `startIndex` exceeds both the `endIndex` and the length of the
original text. -/
theorem detect_sections_span_overrun :
    (⟨"PLAN".toList, 121, 68, true⟩ : SectionSpan) ∈
        detect_sections sharpSText ∧
    sharpSText.length = 68 ∧
    ¬ ((⟨"PLAN".toList, 121, 68, true⟩ : SectionSpan).startIndex ≤
        (⟨"PLAN".toList, 121, 68, true⟩ : SectionSpan).endIndex) ∧
    ¬ ((⟨"PLAN".toList, 121, 68, true⟩ : SectionSpan).startIndex ≤
        sharpSText.length) :=
  ⟨by decide, by decide, by decide, by decide⟩

/-- Claim C10 (amended): every span returned by the section detector has
`startIndex ≥ 1` (spans never start at index 0); and whenever upper-casing
preserves the length of the text — in particular for text whose characters
case-map one-to-one, e.g. ASCII — every span also satisfies
`startIndex ≤ endIndex ≤ length text`.  Without that restriction the upper
bounds fail, because Python `str.upper()` can lengthen the string (see the
counterexample). -/
theorem detect_sections_span_bounds_of_length_preserved (text : Str) :
    (∀ s ∈ detect_sections text, 1 ≤ s.startIndex) ∧
    ((pyUpper text).length = text.length →
      ∀ s ∈ detect_sections text,
        1 ≤ s.startIndex ∧ s.startIndex ≤ s.endIndex ∧
          s.endIndex ≤ text.length) := by
  constructor
  · intro s hs
    obtain ⟨t, ht, _, hstart⟩ := detect_sections_name_mem hs
    have h := (tentativeSpans_start_bounds ht).1
    omega
  · intro hlen s hs
    have hchain : List.Chain' spanLE
        (List.insertionSort spanLE (tentativeSpans text)) :=
      (List.sorted_insertionSort spanLE (tentativeSpans text)).chain'
    have hb : ∀ t ∈ List.insertionSort spanLE (tentativeSpans text),
        1 ≤ t.startIndex ∧ t.startIndex < text.length := by
      intro t ht
      have h := tentativeSpans_start_bounds
        (((List.perm_insertionSort spanLE _).mem_iff).mp ht)
      omega
    exact assignEnds_bounds text.length _ hchain hb s hs

/-- Claim C10 witness: the amended bounds at the ASCII text `"\nPLAN: x"`,
whose uppercasing is length-preserving, and its single returned span. -/
theorem detect_sections_span_bounds_of_length_preserved_witness :
    1 ≤ (⟨"PLAN".toList, 1, 8, true⟩ : SectionSpan).startIndex ∧
    (⟨"PLAN".toList, 1, 8, true⟩ : SectionSpan).startIndex ≤
      (⟨"PLAN".toList, 1, 8, true⟩ : SectionSpan).endIndex ∧
    (⟨"PLAN".toList, 1, 8, true⟩ : SectionSpan).endIndex ≤
      ("\nPLAN: x".toList).length :=
  (detect_sections_span_bounds_of_length_preserved "\nPLAN: x".toList).2
    (by decide) ⟨"PLAN".toList, 1, 8, true⟩ (by decide)

/-- Claim C2: for every text and vocabulary entry, the detector probes the
needles `"\n{HEADER}:"`, `"\n{HEADER}\n"`, `"\n{HEADER} "` in that priority
order against the uppercased text, uses the leftmost occurrence of the
first needle found anywhere (`strFind` returns an occurrence and no earlier
index carries one, and returns `none` exactly when the needle is absent),
records exactly one tentative span with `startIndex` one past the found
index, and contributes nothing when all three needles are absent. -/
theorem detector_entry_probe (text p : Str) (hp : p ∈ section_patterns) :
    ((tentativeSpans text).filter (fun s => s.name = p) =
      (match strFind (pyUpper text) ('\n' :: (p ++ [':'])),
             strFind (pyUpper text) ('\n' :: (p ++ ['\n'])),
             strFind (pyUpper text) ('\n' :: (p ++ [' '])) with
       | some i, _, _ => [⟨p, i + 1⟩]
       | none, some i, _ => [⟨p, i + 1⟩]
       | none, none, some i => [⟨p, i + 1⟩]
       | none, none, none => [])) ∧
    (∀ n i, strFind (pyUpper text) n = some i →
      n <+: (pyUpper text).drop i ∧ ∀ j < i, ¬ n <+: (pyUpper text).drop j) ∧
    (∀ n, strFind (pyUpper text) n = none →
      ∀ j, ¬ n <+: (pyUpper text).drop j) := by
  refine ⟨?_, fun n i hf => ⟨strFind_occurs hf, strFind_min hf⟩,
    fun n hf j => strFind_none hf j⟩
  have h := filterMap_filter_name
    (fun q => (probeEntry (pyUpper text) q).map fun i => (⟨q, i + 1⟩ : TentSpan))
    (by
      intro q s hgs
      dsimp only at hgs
      cases e : probeEntry (pyUpper text) q with
      | none => rw [e] at hgs; cases hgs
      | some i =>
        rw [e] at hgs
        simp only [Option.map_some'] at hgs
        cases hgs
        rfl)
    p section_patterns section_patterns_nodup hp
  rw [tentativeSpans, h]
  simp only [probeEntry]
  cases e1 : strFind (pyUpper text) ('\n' :: (p ++ [':'])) with
  | some i => simp
  | none =>
    cases e2 : strFind (pyUpper text) ('\n' :: (p ++ ['\n'])) with
    | some i => simp
    | none =>
      cases e3 : strFind (pyUpper text) ('\n' :: (p ++ [' '])) with
      | some i => simp
      | none => simp

/-- Claim C2 witness: the probe characterization at the concrete text
`"\nPLAN: x"` and the vocabulary entry `PLAN`. -/
theorem detector_entry_probe_witness :
    ((tentativeSpans "\nPLAN: x".toList).filter
        (fun s => s.name = "PLAN".toList) =
      (match strFind (pyUpper "\nPLAN: x".toList) ('\n' :: ("PLAN".toList ++ [':'])),
             strFind (pyUpper "\nPLAN: x".toList) ('\n' :: ("PLAN".toList ++ ['\n'])),
             strFind (pyUpper "\nPLAN: x".toList) ('\n' :: ("PLAN".toList ++ [' '])) with
       | some i, _, _ => [⟨"PLAN".toList, i + 1⟩]
       | none, some i, _ => [⟨"PLAN".toList, i + 1⟩]
       | none, none, some i => [⟨"PLAN".toList, i + 1⟩]
       | none, none, none => [])) ∧
    (∀ n i, strFind (pyUpper "\nPLAN: x".toList) n = some i →
      n <+: (pyUpper "\nPLAN: x".toList).drop i ∧
        ∀ j < i, ¬ n <+: (pyUpper "\nPLAN: x".toList).drop j) ∧
    (∀ n, strFind (pyUpper "\nPLAN: x".toList) n = none →
      ∀ j, ¬ n <+: (pyUpper "\nPLAN: x".toList).drop j) :=
  detector_entry_probe "\nPLAN: x".toList "PLAN".toList (by decide)

/-- Claim C7: a clinical header occurring only at absolute position 0 of
the text (no occurrence of any boundary-qualified form elsewhere) is never
matched by the section detector, because every needle requires a preceding
newline character. -/
theorem header_at_start_never_matched (text p : Str) (hp : p ∈ section_patterns)
    (hocc : p <+: pyUpper text)
    (honly : ∀ b ∈ [':', '\n', ' '], ∀ i < (pyUpper text).length,
      (p ++ [b]) <+: (pyUpper text).drop i → i = 0) :
    ∀ s ∈ detect_sections text, s.name ≠ p := by
  intro s hs heq
  obtain ⟨t, ht, hname, _⟩ := detect_sections_name_mem hs
  obtain ⟨_, i, hpe, _⟩ := tentativeSpans_mem ht
  rw [hname, heq] at hpe
  obtain ⟨b, hb, hfind⟩ := probeEntry_some hpe
  have hpre := strFind_occurs hfind
  obtain ⟨rest, hrest⟩ := hpre
  have hdrop : (pyUpper text).drop (i + 1) = (p ++ [b]) ++ rest := by
    have h1 : (pyUpper text).drop (i + 1) = ((pyUpper text).drop i).drop 1 := by
      rw [List.drop_drop]
    rw [h1, ← hrest]
    simp
  have hbound := strFind_bound (by simp) hfind
  simp only [List.length_cons, List.length_append, List.length_singleton] at hbound
  have hlt : i + 1 < (pyUpper text).length := by omega
  have := honly b hb (i + 1) hlt (by rw [hdrop]; exact ⟨rest, rfl⟩)
  omega

/-- Claim C7 witness: in `"ASSESSMENT: stable\nPLAN: x"` the `ASSESSMENT`
header sits at absolute position 0 with no preceding newline; the single
span the detector returns is the `PLAN` one, and its name is not
`ASSESSMENT`. -/
theorem header_at_start_never_matched_witness :
    (⟨"PLAN".toList, 19, 26, true⟩ : SectionSpan).name ≠ "ASSESSMENT".toList :=
  header_at_start_never_matched "ASSESSMENT: stable\nPLAN: x".toList
    "ASSESSMENT".toList (by decide) (by decide) (by decide)
    ⟨"PLAN".toList, 19, 26, true⟩ (by decide)

/-!  Facts about the primary pipeline `parse_pdf`. -/

theorem extractPages_isOk :
    ∀ (pages : List PageModel) (k : Nat),
      (extractPages pages k).isOk = pages.all fun p => p.textResult.isOk
  | [], _ => rfl
  | p :: rest, k => by
    rw [List.all_cons, ← extractPages_isOk rest (k + 1)]
    simp only [extractPages]
    cases p.textResult with
    | error e => simp [Except.isOk, Except.toBool]
    | ok t =>
      cases e : extractPages rest (k + 1) with
      | error e' => simp [e, Except.isOk, Except.toBool]
      | ok pr => cases pr; simp [e, Except.isOk, Except.toBool]

/-- Claim C8 (part of): `success` is true exactly when the loader/extractor
pipeline ran to completion without raising. -/
theorem parse_pdf_success_eq (sha : List Nat → Str) (now : Str) (doc : DocModel) :
    (parse_pdf sha now doc).1.success = pipelineOk doc := by
  cases hopen : doc.openResult with
  | error e => simp [parse_pdf, pipelineOk, hopen]
  | ok pr =>
    obtain ⟨pages, md⟩ := pr
    have h := extractPages_isOk pages 0
    cases hext : extractPages pages 0 with
    | error e =>
      rw [hext] at h
      have hpipe : pipelineOk doc = false := by
        rw [pipelineOk, hopen]
        dsimp only
        rw [← h]
        rfl
      rw [hpipe]
      simp [parse_pdf, hopen, hext]
    | ok pr' =>
      obtain ⟨texts, tbls⟩ := pr'
      rw [hext] at h
      have hpipe : pipelineOk doc = true := by
        rw [pipelineOk, hopen]
        dsimp only
        rw [← h]
        rfl
      rw [hpipe]
      simp [parse_pdf, hopen, hext]

/-- Claim C8: after a run that completes extraction, the warnings are
exactly the low-content warning (when the stripped text is shorter than 100
characters) followed by the large-document warning (when the page count
exceeds 100); the large-document message contains the decimal page count;
and `success` equals `pipelineOk`, which is unaffected by either warning
and reflects only whether the pipeline ran without raising. -/
theorem result_assembler_warnings (sha : List Nat → Str) (now : Str) (doc : DocModel) :
    ((parse_pdf sha now doc).1.success = pipelineOk doc) ∧
    (∀ pages md texts tbls,
      doc.openResult = .ok (pages, md) →
      extractPages pages 0 = .ok (texts, tbls) →
      (parse_pdf sha now doc).1.warnings =
        (if (pyStrip (pyJoin "\n\n".toList texts)).length < 100
          then [lowContentWarning] else []) ++
        (if 100 < (parse_pdf sha now doc).1.pageCount
          then [largeDocWarning (parse_pdf sha now doc).1.pageCount] else [])) ∧
    (∀ n : Nat, (Nat.repr n).data <:+: largeDocWarning n) := by
  refine ⟨parse_pdf_success_eq sha now doc, ?_, ?_⟩
  · intro pages md texts tbls hopen hext
    simp [parse_pdf, hopen, hext]
  · intro n
    exact ⟨"Large document with ".toList, " pages".toList, by simp [largeDocWarning]⟩

/-- Claim C8 witness: a completed one-page run of the pipeline. -/
theorem result_assembler_warnings_witness :
    ((parse_pdf sampleSha "Z".toList sampleDoc).1.success = pipelineOk sampleDoc) ∧
    ((parse_pdf sampleSha "Z".toList sampleDoc).1.warnings =
      (if (pyStrip (pyJoin "\n\n".toList ["--- Page 2 ---\nhello doc".toList])).length < 100
        then [lowContentWarning] else []) ++
      (if 100 < (parse_pdf sampleSha "Z".toList sampleDoc).1.pageCount
        then [largeDocWarning (parse_pdf sampleSha "Z".toList sampleDoc).1.pageCount]
        else [])) ∧
    (∀ n : Nat, (Nat.repr n).data <:+: largeDocWarning n) :=
  ⟨(result_assembler_warnings sampleSha "Z".toList sampleDoc).1,
   (result_assembler_warnings sampleSha "Z".toList sampleDoc).2.1
     [⟨.ok [], []⟩, ⟨.ok "hello doc".toList, []⟩]
     (some [("title".toList, "T".toList)])
     ["--- Page 2 ---\nhello doc".toList] [] rfl rfl,
   (result_assembler_warnings sampleSha "Z".toList sampleDoc).2.2⟩

/-- Claim C3: the returned `contentHash` is the abstract SHA-256 hex digest
of the UTF-8 encoding of the returned `text` whenever `text` is non-empty,
and is the empty string when the pipeline raised before producing text (in
which case `text` is also empty). -/
theorem content_hash_matches (sha : List Nat → Str) (now : Str) (doc : DocModel) :
    ((parse_pdf sha now doc).1.text ≠ [] →
      (parse_pdf sha now doc).1.contentHash =
        sha (utf8Bytes (parse_pdf sha now doc).1.text)) ∧
    (pipelineOk doc = false →
      (parse_pdf sha now doc).1.contentHash = [] ∧
        (parse_pdf sha now doc).1.text = []) := by
  cases hopen : doc.openResult with
  | error e =>
    constructor
    · intro hne
      exact absurd (by simp [parse_pdf, hopen, initResult]) hne
    · intro _
      simp [parse_pdf, hopen, initResult]
  | ok pr =>
    obtain ⟨pages, md⟩ := pr
    cases hext : extractPages pages 0 with
    | error e =>
      constructor
      · intro hne
        exact absurd (by simp [parse_pdf, hopen, hext, initResult]) hne
      · intro _
        simp [parse_pdf, hopen, hext, initResult]
    | ok pr' =>
      obtain ⟨texts, tbls⟩ := pr'
      constructor
      · intro _
        simp [parse_pdf, hopen, hext, compute_hash]
      · intro hfail
        have h := extractPages_isOk pages 0
        rw [hext] at h
        have htrue : pipelineOk doc = true := by
          rw [pipelineOk, hopen]
          dsimp only
          rw [← h]
          rfl
        rw [htrue] at hfail
        cases hfail

/-- Claim C3 witness: a completed run with non-empty text, and a run whose
loader raises before any text is produced. -/
theorem content_hash_matches_witness :
    ((parse_pdf sampleSha "Z".toList sampleDoc).1.contentHash =
      sampleSha (utf8Bytes (parse_pdf sampleSha "Z".toList sampleDoc).1.text)) ∧
    ((parse_pdf sampleSha "Z".toList raisingDoc).1.contentHash = [] ∧
      (parse_pdf sampleSha "Z".toList raisingDoc).1.text = []) :=
  ⟨(content_hash_matches sampleSha "Z".toList sampleDoc).1 (by decide),
   (content_hash_matches sampleSha "Z".toList raisingDoc).2 rfl⟩

/-- Claim C4: the claim requires the document handle to be closed on every
exit path, but `doc.close()` (parse.py line 215) sits at the end of the
`try` block: on `raisingDoc` the open succeeds, a later `get_text()` raise
jumps to the `except` handler, and the handle is left open. -/
theorem doc_handle_leak_on_raise :
    raisingDoc.openResult.isOk = true ∧
    (parse_pdf sampleSha "Z".toList raisingDoc).1.success = false ∧
    (parse_pdf sampleSha "Z".toList raisingDoc).2 = false :=
  ⟨rfl, rfl, rfl⟩

/-- Claim C5 counterexample: a run that completes (so it certainly reached
the metadata-extraction stage) but whose document has a falsy `metadata`
attribute leaves `result["metadata"]` empty — its key set is not the fixed
seven-key set the claim requires. -/
theorem pdf_metadata_absent_when_falsy :
    (parse_pdf sampleSha "Z".toList noMetaDoc).1.success = true ∧
    (parse_pdf sampleSha "Z".toList noMetaDoc).1.metadata = [] ∧
    (parse_pdf sampleSha "Z".toList noMetaDoc).1.metadata.map Prod.fst ≠
      pdfMetadataKeys :=
  ⟨rfl, rfl, by decide⟩

/-- Claim C5 (amended): whenever the loader supplies a truthy (non-empty)
metadata dict, the returned metadata has exactly the keys `title`,
`author`, `subject`, `creator`, `producer`, `creationDate`, `modDate`, in
that order, each bound to the dict's value for that key with the empty
string as default. -/
theorem pdf_metadata_keys_of_present (sha : List Nat → Str) (now : Str)
    (doc : DocModel) (pages : List PageModel) (d : List (Str × Str))
    (hopen : doc.openResult = .ok (pages, some d)) (hne : d.isEmpty = false) :
    (parse_pdf sha now doc).1.metadata.map Prod.fst = pdfMetadataKeys ∧
    ∀ k v, (k, v) ∈ (parse_pdf sha now doc).1.metadata →
      v = .str (dictGet d k) := by
  have hmeta : (parse_pdf sha now doc).1.metadata = extractMeta d := by
    cases hext : extractPages pages 0 with
    | error e => simp [parse_pdf, hopen, hext, hne]
    | ok pr => obtain ⟨texts, tbls⟩ := pr; simp [parse_pdf, hopen, hext, hne]
  rw [hmeta]
  constructor
  · simp [extractMeta, List.map_map, Function.comp_def]
  · intro k v hkv
    rw [extractMeta, List.mem_map] at hkv
    obtain ⟨k', _, hk'⟩ := hkv
    cases hk'
    rfl

/-- Claim C5 witness: the amended statement at a concrete document with a
populated metadata dict. -/
theorem pdf_metadata_keys_of_present_witness :
    (parse_pdf sampleSha "Z".toList metaDoc).1.metadata.map Prod.fst =
      pdfMetadataKeys ∧
    ∀ k v, (k, v) ∈ (parse_pdf sampleSha "Z".toList metaDoc).1.metadata →
      v = .str (dictGet [("title".toList, "T".toList),
        ("author".toList, "A".toList)] k) :=
  pdf_metadata_keys_of_present sampleSha "Z".toList metaDoc []
    [("title".toList, "T".toList), ("author".toList, "A".toList)] rfl rfl

/-- Claim C9: when the input path does not exist, the program writes the
reduced shape whose keys are exactly `success` (false), `error`
(`"Input file not found: <path>"`) and `parsedAt` — no `pageCount` and no
`warnings` keys — and exits with code 1. -/
theorem missing_input_reduced_shape (sha : List Nat → Str) (env : Env)
    (hmiss : env.inputExists = false) :
    main_model sha env =
      ⟨[("success".toList, .bool false),
        ("error".toList, .str ("Input file not found: ".toList ++ env.inputPath)),
        ("parsedAt".toList, .str env.now)], 1⟩ ∧
    (main_model sha env).output.map Prod.fst =
      ["success".toList, "error".toList, "parsedAt".toList] ∧
    "pageCount".toList ∉ (main_model sha env).output.map Prod.fst ∧
    "warnings".toList ∉ (main_model sha env).output.map Prod.fst ∧
    (main_model sha env).exitCode = 1 := by
  have h1 : main_model sha env =
      ⟨[("success".toList, .bool false),
        ("error".toList, .str ("Input file not found: ".toList ++ env.inputPath)),
        ("parsedAt".toList, .str env.now)], 1⟩ := by
    rw [main_model, if_pos hmiss]
  refine ⟨h1, ?_, ?_, ?_, ?_⟩ <;> rw [h1] <;> simp

/-- Claim C9 witness: the reduced shape at a concrete missing-input
environment. -/
theorem missing_input_reduced_shape_witness :
    main_model sampleSha missingInputEnv =
      ⟨[("success".toList, .bool false),
        ("error".toList,
          .str ("Input file not found: ".toList ++ missingInputEnv.inputPath)),
        ("parsedAt".toList, .str missingInputEnv.now)], 1⟩ ∧
    (main_model sampleSha missingInputEnv).output.map Prod.fst =
      ["success".toList, "error".toList, "parsedAt".toList] ∧
    "pageCount".toList ∉ (main_model sampleSha missingInputEnv).output.map Prod.fst ∧
    "warnings".toList ∉ (main_model sampleSha missingInputEnv).output.map Prod.fst ∧
    (main_model sampleSha missingInputEnv).exitCode = 1 :=
  missing_input_reduced_shape sampleSha missingInputEnv rfl

/-!  Counting occurrences of the page banner.  The needle `"--- Page "`
contains no newline, so an occurrence can never straddle a newline
character; and within one rendered page it can only sit at the very start,
pinned down by the position of its unique `P`. -/

theorem prefix_append_cons_iff {n C D : Str} (hnl : '\n' ∉ n) :
    n <+: C ++ '\n' :: D ↔ n <+: C := by
  constructor
  · intro h
    rcases le_or_lt n.length C.length with hle | hgt
    · rw [List.prefix_iff_eq_take] at h
      rw [List.take_append_of_le_length hle] at h
      rw [List.prefix_iff_eq_take]
      exact h
    · exfalso
      obtain ⟨t, ht⟩ := h
      have hbig : C.length < (n ++ t).length := by
        rw [ht]
        simp
      have h1 : (n ++ t)[C.length] = n[C.length] :=
        List.getElem_append_left hgt
      have h2 : (n ++ t)[C.length] = '\n' := by
        have h3 : C.length < (C ++ '\n' :: D).length := by simp
        have : (C ++ '\n' :: D)[C.length] = '\n' := by
          rw [List.getElem_append_right (Nat.le_refl _)]
          simp
        simp only [ht]
        exact this
      rw [h1] at h2
      exact hnl (h2 ▸ List.getElem_mem hgt)
  · intro h
    exact h.trans (List.prefix_append C ('\n' :: D))

theorem countOccurrences_nil {n : Str} (hn : n ≠ []) :
    countOccurrences n [] = 0 := by
  cases n with
  | nil => exact absurd rfl hn
  | cons c t => simp [countOccurrences, List.isPrefixOf]

theorem countOccurrences_cons (n : Str) (c : Char) (t : Str) :
    countOccurrences n (c :: t) =
      (if n.isPrefixOf (c :: t) then 1 else 0) + countOccurrences n t := by
  rw [countOccurrences, countOccurrences,
    show (c :: t).length + 1 = (t.length + 1) + 1 by simp,
    List.range_succ_eq_map, List.countP_cons, List.countP_map]
  have hcongr : List.countP ((fun i => n.isPrefixOf ((c :: t).drop i)) ∘ Nat.succ)
      (List.range (t.length + 1)) =
      List.countP (fun i => n.isPrefixOf (t.drop i)) (List.range (t.length + 1)) := by
    apply List.countP_congr
    intro i _
    simp [Function.comp, List.drop_succ_cons]
  rw [hcongr]
  simp [List.drop]
  omega

theorem countOccurrences_append_cons {n : Str} (hn : n ≠ []) (hnl : '\n' ∉ n) :
    ∀ (A : Str) (B : Str),
      countOccurrences n (A ++ '\n' :: B) =
        countOccurrences n A + countOccurrences n ('\n' :: B)
  | [], B => by simp [countOccurrences_nil hn]
  | a :: A, B => by
    rw [List.cons_append, countOccurrences_cons, countOccurrences_cons n a A,
      countOccurrences_append_cons hn hnl A B]
    have hiff : n.isPrefixOf (a :: (A ++ '\n' :: B)) = n.isPrefixOf (a :: A) := by
      rw [Bool.eq_iff_iff, isPrefixOf_eq_true, isPrefixOf_eq_true]
      exact prefix_append_cons_iff (C := a :: A) hnl
    rw [hiff]
    omega

theorem countOccurrences_cons_of_not_mem {n B : Str} {c : Char} (hn : n ≠ [])
    (hc : c ∉ n) : countOccurrences n (c :: B) = countOccurrences n B := by
  rw [countOccurrences_cons]
  have hfalse : n.isPrefixOf (c :: B) = false := by
    rw [Bool.eq_false_iff]
    intro hpre
    rw [isPrefixOf_eq_true] at hpre
    obtain ⟨t, ht⟩ := hpre
    cases n with
    | nil => exact hn rfl
    | cons d n' =>
      have : d = c := by
        have := congrArg (fun l => l.head?) ht
        simpa using this
      exact hc (this ▸ List.mem_cons_self d n')
  rw [hfalse]
  simp

theorem countOccurrences_pyJoin {n : Str} (hn : n ≠ []) (hnl : '\n' ∉ n) :
    ∀ parts : List Str,
      countOccurrences n (pyJoin "\n\n".toList parts) =
        (parts.map (countOccurrences n)).sum
  | [] => by simp [pyJoin, countOccurrences_nil hn]
  | [x] => by simp [pyJoin]
  | x :: y :: rest => by
    have hsplit : pyJoin "\n\n".toList (x :: y :: rest) =
        x ++ '\n' :: ('\n' :: pyJoin "\n\n".toList (y :: rest)) := by
      rw [pyJoin]
      all_goals simp
    rw [hsplit, countOccurrences_append_cons hn hnl,
      countOccurrences_cons_of_not_mem hn hnl,
      countOccurrences_cons_of_not_mem hn hnl,
      countOccurrences_pyJoin hn hnl (y :: rest)]
    simp

theorem sum_map_ones {l : List Str} {f : Str → Nat} (h : ∀ x ∈ l, f x = 1) :
    (l.map f).sum = l.length := by
  induction l with
  | nil => rfl
  | cons a l ih =>
    rw [List.map_cons, List.sum_cons, h a (by simp), List.length_cons,
      ih fun x hx => h x (List.mem_cons_of_mem a hx)]
    omega

theorem toDigitsCore_digits :
    ∀ (fuel n : Nat) (acc : List Char), (∀ c ∈ acc, c.isDigit = true) →
      ∀ c ∈ Nat.toDigitsCore 10 fuel n acc, c.isDigit = true := by
  intro fuel
  induction fuel with
  | zero => intro n acc hacc; simpa [Nat.toDigitsCore] using hacc
  | succ fuel ih =>
    intro n acc hacc
    have hd : (Nat.digitChar (n % 10)).isDigit = true := by
      have hlt : n % 10 < 10 := Nat.mod_lt _ (by omega)
      set m := n % 10 with hm
      interval_cases m <;> decide
    rw [Nat.toDigitsCore]
    split
    · intro c hc
      rcases List.mem_cons.mp hc with rfl | hc'
      · exact hd
      · exact hacc c hc'
    · refine ih (n / 10) (Nat.digitChar (n % 10) :: acc) ?_
      intro c hc
      rcases List.mem_cons.mp hc with rfl | hc'
      · exact hd
      · exact hacc c hc'

theorem repr_digits (m : Nat) : ∀ c ∈ (Nat.repr m).data, c.isDigit = true := by
  intro c hc
  exact toDigitsCore_digits (m + 1) m [] (by simp) c hc

theorem banner_p_unique (k : Nat) :
    ∀ j, ("--- Page ".toList ++ (Nat.repr k).data ++ " ---".toList)[j]? =
        some 'P' → j = 4 := by
  intro j hP
  have h9 : ("--- Page ".toList : Str).length = 9 := by decide
  rcases lt_or_le j 9 with hlt | hge
  · rw [List.getElem?_append_left (by
        rw [List.length_append]
        omega),
      List.getElem?_append_left (by omega)] at hP
    revert hP
    revert hlt
    revert j
    decide
  · exfalso
    rcases lt_or_le j (9 + (Nat.repr k).data.length) with hmid | hhi
    · rw [List.getElem?_append_left (by
          rw [List.length_append]
          omega),
        List.getElem?_append_right (by omega)] at hP
      have hdig := repr_digits k 'P' (List.getElem?_mem hP)
      exact absurd hdig (by decide)
    · rw [List.getElem?_append_right (by
          rw [List.length_append]
          omega)] at hP
      have hmem := List.getElem?_mem hP
      have hnot : ∀ c ∈ (" ---".toList : Str), c ≠ 'P' := by decide
      exact hnot 'P' hmem rfl

theorem count_banner_in_header (k : Nat) :
    countOccurrences "--- Page ".toList
      ("--- Page ".toList ++ (Nat.repr k).data ++ " ---".toList) = 1 := by
  set M : Str := "--- Page ".toList ++ (Nat.repr k).data ++ " ---".toList with hM
  have h9 : ("--- Page ".toList : Str).length = 9 := by decide
  have hone : ∀ i, ("--- Page ".toList).isPrefixOf (M.drop i) = true ↔ i = 0 := by
    intro i
    constructor
    · intro hpre
      rw [isPrefixOf_eq_true] at hpre
      have hlen : 9 ≤ (M.drop i).length := by
        have := hpre.length_le
        omega
      have hdl : (M.drop i).length = M.length - i := List.length_drop i M
      have hb : 4 < (M.drop i).length := by omega
      have h4 : (M.drop i)[4] = 'P' := by
        rw [← hpre.getElem (by decide : 4 < ("--- Page ".toList : Str).length)]
        decide
      have hbound : i + 4 < M.length := by omega
      have hM4 : M[i + 4] = 'P' := by
        rw [← List.getElem_drop M (i := i) (j := 4)]
        exact h4
      have hq : M[i + 4]? = some 'P' := by
        rw [List.getElem?_eq_getElem hbound, hM4]
      have := banner_p_unique k (i + 4) (by rw [← hM]; exact hq)
      omega
    · intro hi
      subst hi
      rw [List.drop_zero, hM, isPrefixOf_eq_true, List.append_assoc]
      exact List.prefix_append _ _
  rw [countOccurrences]
  have hcongr : List.countP (fun i => ("--- Page ".toList).isPrefixOf (M.drop i))
      (List.range (M.length + 1)) =
      List.countP (fun i => i == 0) (List.range (M.length + 1)) := by
    apply List.countP_congr
    intro i _
    rw [hone i]
    simp
  rw [hcongr, List.range_succ_eq_map, List.countP_cons, List.countP_map]
  have hz : List.countP ((fun i => i == 0) ∘ Nat.succ) (List.range M.length) = 0 := by
    rw [List.countP_eq_zero]
    intro a _
    simp [Function.comp]
  rw [hz]
  simp

theorem count_banner_in_page (k : Nat) (t : Str) :
    countOccurrences "--- Page ".toList (pageHeader k ++ t) =
      1 + countOccurrences "--- Page ".toList t := by
  have hn : ("--- Page ".toList : Str) ≠ [] := by decide
  have hnl : '\n' ∉ ("--- Page ".toList : Str) := by decide
  have hform : pageHeader k ++ t =
      ("--- Page ".toList ++ (Nat.repr k).data ++ " ---".toList) ++ '\n' :: t := by
    rw [pageHeader]
    have hsplit : (" ---\n".toList : Str) = " ---".toList ++ ['\n'] := by decide
    rw [hsplit]
    simp
  rw [hform, countOccurrences_append_cons hn hnl, count_banner_in_header,
    countOccurrences_cons_of_not_mem hn hnl]

/-!  Characterization of the per-page text collection. -/

theorem extractPages_texts :
    ∀ (pages : List PageModel) (k : Nat) (texts : List Str)
      (tbls : List TableRecord),
      extractPages pages k = .ok (texts, tbls) →
      texts = (pages.enumFrom k).filterMap fun ip =>
        match ip.2.textResult with
        | .ok t => if t.isEmpty then none else some (pageHeader (ip.1 + 1) ++ t)
        | .error _ => none
  | [], k, texts, tbls => by
    intro h
    rw [extractPages] at h
    cases h
    simp
  | p :: rest, k, texts, tbls => by
    intro h
    rw [extractPages] at h
    cases hp : p.textResult with
    | error e => rw [hp] at h; cases h
    | ok t =>
      rw [hp] at h
      cases he : extractPages rest (k + 1) with
      | error e => rw [he] at h; cases h
      | ok pr =>
        obtain ⟨texts', tbls'⟩ := pr
        rw [he] at h
        cases h
        have ih := extractPages_texts rest (k + 1) texts' tbls' he
        rw [List.enumFrom_cons, List.filterMap_cons]
        simp only [hp]
        rw [ih]
        by_cases ht : t.isEmpty
        · simp [ht]
        · simp [ht]

theorem extractPages_texts_length :
    ∀ (pages : List PageModel) (k : Nat) (texts : List Str)
      (tbls : List TableRecord),
      extractPages pages k = .ok (texts, tbls) →
      texts.length = pages.countP fun p =>
        match p.textResult with
        | .ok t => !t.isEmpty
        | .error _ => false
  | [], k, texts, tbls => by
    intro h
    rw [extractPages] at h
    cases h
    rfl
  | p :: rest, k, texts, tbls => by
    intro h
    rw [extractPages] at h
    cases hp : p.textResult with
    | error e => rw [hp] at h; cases h
    | ok t =>
      rw [hp] at h
      cases he : extractPages rest (k + 1) with
      | error e => rw [he] at h; cases h
      | ok pr =>
        obtain ⟨texts', tbls'⟩ := pr
        rw [he] at h
        cases h
        have ih := extractPages_texts_length rest (k + 1) texts' tbls' he
        rw [List.countP_cons]
        simp only [hp]
        by_cases ht : t.isEmpty
        · simp [ht, ih]
        · simp [ht, ih]

theorem enumFrom_snd_mem {α : Type} {l : List α} {k : Nat} {ip : Nat × α}
    (h : ip ∈ l.enumFrom k) : ip.2 ∈ l := by
  obtain ⟨i, x⟩ := ip
  obtain ⟨h1, h2, h3⟩ := List.mem_enumFrom h
  rw [h3]
  exact List.getElem_mem _

/-- Claim C6: the extractor skips pages with empty text (no placeholder),
renders each non-empty page as the banner `"--- Page {1-based-index} ---"`
plus a newline and the page text — the index reflecting true document
position even after skipped pages — joins the rendered pages with a blank
line, and (when no page text itself contains the banner prefix) the number
of banner occurrences in the final text equals the number of pages with
non-empty extracted text. -/
theorem text_extractor_page_markers (sha : List Nat → Str) (now : Str)
    (doc : DocModel) (pages : List PageModel) (md : Option (List (Str × Str)))
    (hopen : doc.openResult = .ok (pages, md))
    (hall : (pages.all fun p => p.textResult.isOk) = true) :
    ((parse_pdf sha now doc).1.text =
      pyJoin "\n\n".toList (pages.enum.filterMap fun ip =>
        match ip.2.textResult with
        | .ok t => if t.isEmpty then none else some (pageHeader (ip.1 + 1) ++ t)
        | .error _ => none)) ∧
    ((∀ p ∈ pages, ∀ t, p.textResult = .ok t →
        countOccurrences "--- Page ".toList t = 0) →
      countOccurrences "--- Page ".toList (parse_pdf sha now doc).1.text =
        pages.countP fun p =>
          match p.textResult with
          | .ok t => !t.isEmpty
          | .error _ => false) := by
  have hiok := extractPages_isOk pages 0
  rw [hall] at hiok
  cases hext : extractPages pages 0 with
  | error e =>
    rw [hext] at hiok
    exact absurd hiok (by simp [Except.isOk, Except.toBool])
  | ok pr =>
    obtain ⟨texts, tbls⟩ := pr
    have htext : (parse_pdf sha now doc).1.text = pyJoin "\n\n".toList texts := by
      simp [parse_pdf, hopen, hext]
    have hchar := extractPages_texts pages 0 texts tbls hext
    constructor
    · rw [htext, hchar]
      rfl
    · intro hclean
      rw [htext, countOccurrences_pyJoin (by decide) (by decide) texts]
      have hparts : ∀ x ∈ texts, countOccurrences "--- Page ".toList x = 1 := by
        intro x hx
        rw [hchar] at hx
        obtain ⟨ip, hip, hfx⟩ := List.mem_filterMap.mp hx
        obtain ⟨i, p⟩ := ip
        dsimp only at hfx
        cases hp : p.textResult with
        | error e => rw [hp] at hfx; simp at hfx
        | ok t =>
          rw [hp] at hfx
          dsimp only at hfx
          by_cases ht : t.isEmpty
          · rw [if_pos ht] at hfx; cases hfx
          · rw [if_neg ht] at hfx
            cases hfx
            rw [count_banner_in_page]
            have hmem : p ∈ pages := enumFrom_snd_mem hip
            rw [hclean p hmem t hp]
      rw [sum_map_ones hparts]
      exact extractPages_texts_length pages 0 texts tbls hext

/-- Claim C6 witness: the two-page sample document — an empty first page
(skipped) and a non-empty second page rendered as page 2. -/
theorem text_extractor_page_markers_witness :
    ((parse_pdf sampleSha "Z".toList sampleDoc).1.text =
      pyJoin "\n\n".toList
        (([⟨.ok [], []⟩, ⟨.ok "hello doc".toList, []⟩] :
            List PageModel).enum.filterMap fun ip =>
          match ip.2.textResult with
          | .ok t => if t.isEmpty then none else some (pageHeader (ip.1 + 1) ++ t)
          | .error _ => none)) ∧
    (countOccurrences "--- Page ".toList
        (parse_pdf sampleSha "Z".toList sampleDoc).1.text =
      ([⟨.ok [], []⟩, ⟨.ok "hello doc".toList, []⟩] :
          List PageModel).countP fun p =>
        match p.textResult with
        | .ok t => !t.isEmpty
        | .error _ => false) :=
  ⟨(text_extractor_page_markers sampleSha "Z".toList sampleDoc
      [⟨.ok [], []⟩, ⟨.ok "hello doc".toList, []⟩]
      (some [("title".toList, "T".toList)]) rfl rfl).1,
   (text_extractor_page_markers sampleSha "Z".toList sampleDoc
      [⟨.ok [], []⟩, ⟨.ok "hello doc".toList, []⟩]
      (some [("title".toList, "T".toList)]) rfl rfl).2
     (by
       intro p hp t ht
       rcases List.mem_cons.mp hp with rfl | hp'
       · cases ht
         decide
       · rcases List.mem_cons.mp hp' with rfl | hp''
         · cases ht
           decide
         · cases hp'')⟩

end DocParser
